import Mathlib

/-!
Verification of the MITK node-relationship data store specification.

The repository sources available under scrutiny contain the data-storage test
suite (`src/Testing/mitkDataStorageTest.cpp`) and the data-type predicate header
(`src/Core/DataStructures/mitkDataStorage/mitkNodePredicateDataType.h`).  The
store implementation itself (`mitkDataStorage.cpp` and relatives) is not part of
the sampled sources, so its operations are modelled from the specification
(`spec.md`), faithful to its words; the data-type predicate is embedded directly
from the header.
-/

namespace MitkStore

/-- Node identity: nodes are distinguished by reference identity; we model a
reference by a numeric id. -/
abbrev NodeId := Nat

/-- Property values attached to nodes.  Modelled from the spec: an opaque,
comparable, named attribute value (name strings, colors, group-tag markers).
Colors are modelled as integer triples (value equality is all that matters). -/
inductive PropValue where
  | stringProp : String → PropValue
  | colorProp : Int → Int → Int → PropValue
  | groupTagProp : PropValue
deriving DecidableEq, Repr

/-- A data payload.  Modelled from the spec: an opaque, type-erased object with
reference identity (`id`), a runtime class name, the class names of all its
super-classes (for polymorphic `dynamic_cast`-style matching), and an optional
reported dimensionality. -/
structure BaseData where
  id : Nat
  className : String
  supers : List String
  dim : Option Nat
deriving DecidableEq, Repr

/-- The list of class names a payload is an instance of: its own class first,
then its ancestors.  A `dynamic_cast` to `T` succeeds exactly when `T` is in
this list. -/
def BaseData.classes (d : BaseData) : List String :=
  d.className :: d.supers

/-- A stored node.  Modelled from the spec: optional opaque data payload and a
string-keyed property mapping; identity is the `id` field (reference
identity). -/
structure DataTreeNode where
  id : NodeId
  data : Option BaseData
  properties : List (String × PropValue)
deriving DecidableEq, Repr

/-- Property lookup on a node: first binding of the key, if any. -/
def propertyOf (nd : DataTreeNode) (key : String) : Option PropValue :=
  match nd.properties.find? (fun kv => kv.1 == key) with
  | some kv => some kv.2
  | none => none

/-- The node's name: the string stored under the reserved key "name". -/
def nameOf (nd : DataTreeNode) : Option String :=
  match propertyOf nd "name" with
  | some (PropValue.stringProp s) => some s
  | _ => none

namespace TNodePredicateDataType

/-- Embedded from `src/Core/DataStructures/mitkDataStorage/mitkNodePredicateDataType.h`
lines 76-79: `return node && node->GetData() && dynamic_cast<T*>(node->GetData());`.
The node pointer may be null (`none`); `dynamic_cast<T*>` succeeds exactly when
the payload's dynamic type is `T` or a sub-type, i.e. `T` is among its class
names. -/
def CheckNode (T : String) (node : Option DataTreeNode) : Bool :=
  match node with
  | none => false
  | some nd =>
    match nd.data with
    | none => false
    | some d => d.classes.contains T

end TNodePredicateDataType

/-- Predicate language.  Modelled from the spec §4.1: leaf predicates test
data-payload type (exact or subclass-compatible), payload identity,
dimensionality, or named-property equality; composite predicates are AND/OR
over an ordered child list and NOT over a single child. -/
inductive NodePredicate where
  | dataTypeExact : String → NodePredicate
  | dataTypeCompat : String → NodePredicate
  | dimension : Nat → NodePredicate
  | dataIdentity : Option Nat → NodePredicate
  | property : String → Option PropValue → NodePredicate
  | and : List NodePredicate → NodePredicate
  | or : List NodePredicate → NodePredicate
  | not : NodePredicate → NodePredicate

/-- Leaf predicates, as opposed to the AND/OR/NOT combinators. -/
def NodePredicate.isLeaf : NodePredicate → Bool
  | .dataTypeExact _ => true
  | .dataTypeCompat _ => true
  | .dimension _ => true
  | .dataIdentity _ => true
  | .property _ _ => true
  | .and _ => false
  | .or _ => false
  | .not _ => false

mutual

/-- Predicate evaluation.  Modelled from the spec §4.1 (total, pure; a null
node or absent data is never an error).  The subclass-compatible data-type
leaf delegates to the embedded `TNodePredicateDataType.CheckNode`; the other
leaves follow the spec's words.  AND/OR evaluate their children short-circuit
left-to-right via `checkAll`/`checkAny`. -/
def checkNode : NodePredicate → Option DataTreeNode → Bool
  | .dataTypeExact t, node =>
    match node with
    | none => false
    | some nd =>
      match nd.data with
      | none => false
      | some d => d.className == t
  | .dataTypeCompat t, node => TNodePredicateDataType.CheckNode t node
  | .dimension k, node =>
    match node with
    | none => false
    | some nd =>
      match nd.data with
      | none => false
      | some d => d.dim == some k
  | .dataIdentity target, node =>
    match node with
    | none => false
    | some nd =>
      match target, nd.data with
      | none, none => true
      | none, some _ => false
      | some _, none => false
      | some i, some d => d.id == i
  | .property key expected, node =>
    match node with
    | none => false
    | some nd =>
      match expected with
      | none => (propertyOf nd key).isSome
      | some v => propertyOf nd key == some v
  | .and ps, node => checkAll ps node
  | .or ps, node => checkAny ps node
  | .not p, node => !(checkNode p node)

/-- All children match; the empty list matches everything.  `&&` evaluates
left-to-right and short-circuits. -/
def checkAll : List NodePredicate → Option DataTreeNode → Bool
  | [], _ => true
  | p :: ps, node => checkNode p node && checkAll ps node

/-- At least one child matches; the empty list matches nothing.  `||` evaluates
left-to-right and short-circuits. -/
def checkAny : List NodePredicate → Option DataTreeNode → Bool
  | [], _ => false
  | p :: ps, node => checkNode p node || checkAny ps node

end

/-- Events dispatched by the store.  Modelled from the spec §4.4: two streams,
add-notifications and remove-notifications, each carrying the affected node. -/
inductive StoreEvent where
  | nodeAdded : NodeId → StoreEvent
  | nodeRemoved : NodeId → StoreEvent
deriving DecidableEq, Repr

/-- Errors raised by `Add`.  Modelled from the spec §7. -/
inductive AddError where
  | duplicateNode
  | selfParent
  | parentNotManaged
deriving DecidableEq, Repr

/-- The data store state.  Modelled from the spec §3: the authoritative managed
node set (in insertion order) and the relation graph kept as two adjacency
views, `sources` (node ↦ its direct sources) and `derivations` (node ↦ the
nodes derived from it), plus the registered event listeners (§4.4). -/
structure DataStorage where
  nodes : List DataTreeNode
  sources : List (NodeId × List NodeId)
  derivations : List (NodeId × List NodeId)
  listeners : List Nat
deriving DecidableEq, Repr

/-- Whether a node id is currently managed. -/
def isManaged (ds : DataStorage) (n : NodeId) : Bool :=
  ds.nodes.any (fun nd => nd.id == n)

/-- Look a node id up in the managed set. -/
def findNode (ds : DataStorage) (n : NodeId) : Option DataTreeNode :=
  ds.nodes.find? (fun nd => nd.id == n)

/-- Adjacency lookup: the value list stored under a key, empty when absent. -/
def lookupIds (m : List (NodeId × List NodeId)) (n : NodeId) : List NodeId :=
  match m.find? (fun kv => kv.1 == n) with
  | some kv => kv.2
  | none => []

/-- Direct sources (parents) of a node. -/
def sourcesOf (ds : DataStorage) (n : NodeId) : List NodeId :=
  lookupIds ds.sources n

/-- Direct derivations (children) of a node. -/
def derivationsOf (ds : DataStorage) (n : NodeId) : List NodeId :=
  lookupIds ds.derivations n

/-- The ids of the managed nodes. -/
def univIds (ds : DataStorage) : List NodeId :=
  ds.nodes.map DataTreeNode.id

/-- Replace (or create) the value list stored under a key. -/
def setEntry (m : List (NodeId × List NodeId)) (k : NodeId) (vs : List NodeId) :
    List (NodeId × List NodeId) :=
  if m.any (fun kv => kv.1 == k) then
    m.map (fun kv => if kv.1 == k then (kv.1, vs) else kv)
  else m ++ [(k, vs)]

/-- Insert a value into the set stored under a key (creating the entry when
absent, keeping the stored lists duplicate-free). -/
def insertEntry (m : List (NodeId × List NodeId)) (k v : NodeId) :
    List (NodeId × List NodeId) :=
  if m.any (fun kv => kv.1 == k) then
    m.map (fun kv =>
      if kv.1 == k then (kv.1, if kv.2.contains v then kv.2 else kv.2 ++ [v])
      else kv)
  else m ++ [(k, [v])]

/-- Delete a node from an adjacency view: its own entry disappears and it is
removed from every remaining value list. -/
def removeEntry (m : List (NodeId × List NodeId)) (n : NodeId) :
    List (NodeId × List NodeId) :=
  (m.filter (fun kv => !(kv.1 == n))).map
    (fun kv => (kv.1, kv.2.filter (fun x => !(x == n))))

/-- `Add(node, parents)`.  Modelled from the spec §4.2 (non-auto-adding
overload): it fails with `duplicateNode` if the node is already managed, with
`selfParent` if the node appears in its own parent set, with
`parentNotManaged` if some parent is not managed — the spec lists the checks
in that order and requires failures to leave the store unmodified (the error
result carries no new state).  On success it registers the node, inserts each
edge parent→node in both adjacency views, and fires the add-event to every
registered listener, synchronously, after the mutation is applied (the event
list is computed from the post-state). -/
def Add (ds : DataStorage) (node : DataTreeNode) (parents : List NodeId) :
    Except AddError (DataStorage × List (Nat × StoreEvent)) :=
  if isManaged ds node.id then .error .duplicateNode
  else if parents.contains node.id then .error .selfParent
  else if !(parents.all (fun p => isManaged ds p)) then .error .parentNotManaged
  else
    let ds2 : DataStorage :=
      { nodes := ds.nodes ++ [node]
        sources := setEntry ds.sources node.id parents.dedup
        derivations :=
          parents.dedup.foldl (fun m p => insertEntry m p node.id)
            (setEntry ds.derivations node.id [])
        listeners := ds.listeners }
    .ok (ds2, ds2.listeners.map (fun l => (l, StoreEvent.nodeAdded node.id)))

/-- The store an exception-catching caller still holds after `Add`: the new
state on success, the untouched old state when the call raised. -/
def tryAdd (ds : DataStorage) (node : DataTreeNode) (parents : List NodeId) :
    DataStorage :=
  match Add ds node parents with
  | .ok r => r.1
  | .error _ => ds

/-- `Remove(node)`.  Modelled from the spec §4.2: every edge touching the node
is removed from both adjacency views, the node's own entries are cleared, the
node leaves the managed set (children are not reparented), and the
remove-event fires to every registered listener after the mutation is applied;
removing an unmanaged node is a silent no-op. -/
def Remove (ds : DataStorage) (n : NodeId) :
    DataStorage × List (Nat × StoreEvent) :=
  if isManaged ds n then
    let ds2 : DataStorage :=
      { nodes := ds.nodes.filter (fun nd => !(nd.id == n))
        sources := removeEntry ds.sources n
        derivations := removeEntry ds.derivations n
        listeners := ds.listeners }
    (ds2, ds2.listeners.map (fun l => (l, StoreEvent.nodeRemoved n)))
  else (ds, [])

/-- Register an event listener.  Modelled from the spec §4.4 (a handle appears
at most once in the dispatch list). -/
def AddListener (ds : DataStorage) (l : Nat) : DataStorage :=
  if ds.listeners.contains l then ds
  else { ds with listeners := ds.listeners ++ [l] }

/-- Deregister an event listener.  Modelled from the spec §4.4: a deregistered
listener receives no further events. -/
def RemoveListener (ds : DataStorage) (l : Nat) : DataStorage :=
  { ds with listeners := ds.listeners.filter (fun x => !(x == l)) }

/-- `GetAll()`.  Modelled from the spec §4.3: the managed set, as a snapshot. -/
def GetAll (ds : DataStorage) : List DataTreeNode :=
  ds.nodes

/-- `GetSubset(predicate)`.  Modelled from the spec §4.3: every managed node
satisfying the predicate, in stable (insertion) order. -/
def GetSubset (ds : DataStorage) (p : NodePredicate) : List DataTreeNode :=
  ds.nodes.filter (fun nd => checkNode p (some nd))

/-- One expansion step of the visited-set traversal: the adjacency successors
of the visited set that are managed (`univ`) and not yet visited,
duplicate-free. -/
def newFrontier (adj : NodeId → List NodeId) (univ s : List NodeId) :
    List NodeId :=
  ((s.flatMap adj).filter (fun x => univ.contains x && !(s.contains x))).dedup

/-- Fuel-driven saturation of the visited set under the adjacency relation
(the explicit visited-set traversal the spec §9 prescribes for cycle-tolerant
closure).  Each productive step strictly grows the visited set inside `univ`,
so `univ.dedup.length + 1` units of fuel always reach the fixpoint. -/
def saturateAux (adj : NodeId → List NodeId) (univ : List NodeId) :
    Nat → List NodeId → List NodeId
  | 0, s => s
  | fuel + 1, s =>
    if newFrontier adj univ s = [] then s
    else saturateAux adj univ fuel (s ++ newFrontier adj univ s)

/-- The set of nodes reachable from the visited set `s` by repeatedly following
`adj` edges inside `univ`; each element appears exactly once when `s` is
duplicate-free. -/
def saturate (adj : NodeId → List NodeId) (univ s : List NodeId) :
    List NodeId :=
  saturateAux adj univ (univ.dedup.length + 1) s

/-- Transitive closure started from the direct neighbours of `n`, excluding `n`
itself.  Modelled from the spec §4.3 (`directOnly = false`): follow edges
repeatedly from the direct neighbours, deduplicate, terminate on cycles via the
visited set, never include `n`. -/
def closureFrom (adj : NodeId → List NodeId) (univ : List NodeId)
    (n : NodeId) : List NodeId :=
  (saturate adj univ (((adj n).filter (fun x => univ.contains x)).dedup)).filter
    (fun x => !(x == n))

/-- Optional post-filtering of a result set by a predicate (spec §4.3:
"filtered post-closure by predicate if supplied"). -/
def filterByPred (ds : DataStorage) (pred : Option NodePredicate)
    (res : List NodeId) : List NodeId :=
  match pred with
  | none => res
  | some p => res.filter (fun x => checkNode p (findNode ds x))

/-- `GetSources(node, predicate, directOnly)`.  Modelled from the spec §4.3:
the immediate parents when `directOnly`, otherwise the deduplicated transitive
closure of ancestors (never containing `node`), optionally filtered. -/
def GetSources (ds : DataStorage) (n : NodeId) (pred : Option NodePredicate)
    (directOnly : Bool) : List NodeId :=
  filterByPred ds pred
    (if directOnly then sourcesOf ds n
     else closureFrom (sourcesOf ds) (univIds ds) n)

/-- `GetDerivations(node, predicate, directOnly)`.  Modelled from the spec
§4.3: symmetric to `GetSources`, following derivation edges. -/
def GetDerivations (ds : DataStorage) (n : NodeId) (pred : Option NodePredicate)
    (directOnly : Bool) : List NodeId :=
  filterByPred ds pred
    (if directOnly then derivationsOf ds n
     else closureFrom (derivationsOf ds) (univIds ds) n)

/-- `GetNamedNode(name)`.  Modelled from the spec §4.3: the first managed node
whose name property equals `name`. -/
def GetNamedNode (ds : DataStorage) (s : String) : Option DataTreeNode :=
  ds.nodes.find? (fun nd => nameOf nd == some s)

/-- `GetNamedObject<T>(name)`.  Modelled from the spec §4.3 and the test around
`src/Testing/mitkDataStorageTest.cpp` lines 471-478: look the named node up and
`dynamic_cast` its payload to `T`; null when the name is absent, the node has
no payload, or the payload is not a `T` (nor a sub-type). -/
def GetNamedObject (ds : DataStorage) (T : String) (s : String) :
    Option BaseData :=
  match GetNamedNode ds s with
  | none => none
  | some nd =>
    match nd.data with
    | none => none
    | some d => if d.classes.contains T then some d else none

/-- Single-step edge relation of an adjacency function restricted to a
universe: `b` follows `a` when `b` is a successor of `a` and is managed. -/
def StepIn (adj : NodeId → List NodeId) (univ : List NodeId)
    (a b : NodeId) : Prop :=
  b ∈ adj a ∧ b ∈ univ

/-- Reachability by repeatedly following `adj` edges inside `univ`. -/
def ReachesIn (adj : NodeId → List NodeId) (univ : List NodeId)
    (a b : NodeId) : Prop :=
  Relation.ReflTransGen (StepIn adj univ) a b

/-- Membership in the expansion frontier, unfolded. -/
theorem mem_newFrontier {adj : NodeId → List NodeId} {univ s : List NodeId}
    {x : NodeId} :
    x ∈ newFrontier adj univ s ↔
      (∃ a ∈ s, x ∈ adj a) ∧ x ∈ univ ∧ x ∉ s := by
  simp [newFrontier, List.mem_filter, List.mem_flatMap]

/-- The visited set only grows during saturation. -/
theorem subset_saturateAux (adj : NodeId → List NodeId) (univ : List NodeId) :
    ∀ fuel s, ∀ x ∈ s, x ∈ saturateAux adj univ fuel s := by
  intro fuel
  induction fuel with
  | zero => intro s x hx; simpa [saturateAux] using hx
  | succ f ih =>
    intro s x hx
    by_cases hnf : newFrontier adj univ s = []
    · simpa [saturateAux, hnf] using hx
    · simp only [saturateAux, hnf, if_neg, ite_false]
      exact ih _ x (List.mem_append_left _ hx)

/-- Saturation keeps the visited set duplicate-free. -/
theorem saturateAux_nodup (adj : NodeId → List NodeId) (univ : List NodeId) :
    ∀ fuel s, s.Nodup → (saturateAux adj univ fuel s).Nodup := by
  intro fuel
  induction fuel with
  | zero => intro s hs; simpa [saturateAux] using hs
  | succ f ih =>
    intro s hs
    by_cases hnf : newFrontier adj univ s = []
    · simpa [saturateAux, hnf] using hs
    · simp only [saturateAux, hnf, ite_false]
      refine ih _ (hs.append ?_ ?_)
      · exact List.nodup_dedup _
      · intro x hxs hxf
        exact (mem_newFrontier.mp hxf).2.2 hxs

/-- Elements of the saturated set come from the start set or the universe. -/
theorem saturateAux_mem_univ (adj : NodeId → List NodeId) (univ : List NodeId) :
    ∀ fuel s, ∀ x ∈ saturateAux adj univ fuel s, x ∈ s ∨ x ∈ univ := by
  intro fuel
  induction fuel with
  | zero => intro s x hx; exact Or.inl (by simpa [saturateAux] using hx)
  | succ f ih =>
    intro s x hx
    by_cases hnf : newFrontier adj univ s = []
    · exact Or.inl (by simpa [saturateAux, hnf] using hx)
    · simp only [saturateAux, hnf, ite_false] at hx
      rcases ih _ x hx with hmem | hmem
      · rcases List.mem_append.mp hmem with h | h
        · exact Or.inl h
        · exact Or.inr (mem_newFrontier.mp h).2.1
      · exact Or.inr hmem

/-- A strict-filter counting helper: when the stricter test rejects an element
of the list that the looser test accepts, the stricter filter is strictly
shorter. -/
theorem length_filter_lt_of_missing {α : Type} {l : List α} {p q : α → Bool}
    (hpq : ∀ a, q a = true → p a = true) {x : α} (hx : x ∈ l)
    (hq : q x = false) (hp : p x = true) :
    (l.filter q).length < (l.filter p).length := by
  have hsub : List.Sublist (l.filter q) (l.filter p) :=
    List.monotone_filter_right l hpq
  rcases Nat.lt_or_ge (l.filter q).length (l.filter p).length with h | h
  · exact h
  · exfalso
    have heq : l.filter q = l.filter p :=
      hsub.eq_of_length (le_antisymm hsub.length_le h)
    have hmem : x ∈ l.filter p := List.mem_filter.mpr ⟨hx, hp⟩
    rw [← heq] at hmem
    have := (List.mem_filter.mp hmem).2
    simp [hq] at this

/-- Unvisited managed nodes, the termination measure of the traversal. -/
def remainingCount (univ s : List NodeId) : Nat :=
  (univ.dedup.filter (fun x => !(s.contains x))).length

/-- Each productive expansion step strictly decreases the number of unvisited
managed nodes. -/
theorem remainingCount_lt {adj : NodeId → List NodeId} {univ s : List NodeId}
    (hnf : newFrontier adj univ s ≠ []) :
    remainingCount univ (s ++ newFrontier adj univ s) < remainingCount univ s := by
  rcases List.exists_mem_of_ne_nil _ hnf with ⟨x, hx⟩
  have hprops := mem_newFrontier.mp hx
  unfold remainingCount
  apply length_filter_lt_of_missing (x := x)
  · intro a ha
    have ha2 : a ∉ s ++ newFrontier adj univ s := by simpa using ha
    simpa using fun hmem => ha2 (List.mem_append_left _ hmem)
  · exact List.mem_dedup.mpr hprops.2.1
  · simpa using fun _ => hx
  · simpa using hprops.2.2

/-- With enough fuel the traversal reaches a state whose frontier is empty. -/
theorem saturateAux_frontier_eq_nil (adj : NodeId → List NodeId)
    (univ : List NodeId) :
    ∀ fuel s, remainingCount univ s < fuel →
      newFrontier adj univ (saturateAux adj univ fuel s) = [] := by
  intro fuel
  induction fuel with
  | zero => intro s h; omega
  | succ f ih =>
    intro s h
    by_cases hnf : newFrontier adj univ s = []
    · simp [saturateAux, hnf]
    · simp only [saturateAux, hnf, ite_false]
      apply ih
      have hlt := remainingCount_lt hnf
      omega

/-- The starting fuel of `saturate` always suffices. -/
theorem remainingCount_lt_start_fuel (univ s : List NodeId) :
    remainingCount univ s < univ.dedup.length + 1 := by
  have := List.length_filter_le (fun x => !(s.contains x)) univ.dedup
  unfold remainingCount
  omega

/-- The saturated set is closed under managed adjacency successors. -/
theorem saturate_closed (adj : NodeId → List NodeId) (univ s : List NodeId)
    {x y : NodeId} (hx : x ∈ saturate adj univ s) (hy : y ∈ adj x)
    (hyu : y ∈ univ) : y ∈ saturate adj univ s := by
  by_contra hmem
  have hempty : newFrontier adj univ (saturate adj univ s) = [] :=
    saturateAux_frontier_eq_nil adj univ _ s
      (remainingCount_lt_start_fuel univ s)
  have : y ∈ newFrontier adj univ (saturate adj univ s) :=
    mem_newFrontier.mpr ⟨⟨x, hx, hy⟩, hyu, hmem⟩
  rw [hempty] at this
  cases this

/-- Everything the traversal visits is reachable from the start set. -/
theorem saturateAux_sound (adj : NodeId → List NodeId) (univ : List NodeId) :
    ∀ fuel s, ∀ x ∈ saturateAux adj univ fuel s,
      ∃ p ∈ s, ReachesIn adj univ p x := by
  intro fuel
  induction fuel with
  | zero =>
    intro s x hx
    exact ⟨x, by simpa [saturateAux] using hx, Relation.ReflTransGen.refl⟩
  | succ f ih =>
    intro s x hx
    by_cases hnf : newFrontier adj univ s = []
    · exact ⟨x, by simpa [saturateAux, hnf] using hx, Relation.ReflTransGen.refl⟩
    · simp only [saturateAux, hnf, ite_false] at hx
      rcases ih _ x hx with ⟨p, hp, hr⟩
      rcases List.mem_append.mp hp with hps | hpf
      · exact ⟨p, hps, hr⟩
      · rcases mem_newFrontier.mp hpf with ⟨⟨q, hq, hpq⟩, hpu, _⟩
        exact ⟨q, hq, Relation.ReflTransGen.head ⟨hpq, hpu⟩ hr⟩

/-- Everything reachable from the start set is visited. -/
theorem saturate_complete (adj : NodeId → List NodeId) (univ s : List NodeId)
    {p x : NodeId} (hp : p ∈ s) (hr : ReachesIn adj univ p x) :
    x ∈ saturate adj univ s := by
  induction hr with
  | refl => exact subset_saturateAux adj univ _ s p hp
  | tail _ hbc ih => exact saturate_closed adj univ s ih hbc.1 hbc.2

/-- Membership in the saturated set is exactly reachability from the start
set. -/
theorem mem_saturate (adj : NodeId → List NodeId) (univ s : List NodeId)
    (x : NodeId) :
    x ∈ saturate adj univ s ↔ ∃ p ∈ s, ReachesIn adj univ p x := by
  constructor
  · intro hx
    exact saturateAux_sound adj univ _ s x hx
  · rintro ⟨p, hp, hr⟩
    exact saturate_complete adj univ s hp hr

/-- Membership in the cycle-safe transitive closure from `n`'s direct
neighbours: exactly the managed nodes other than `n` reachable from a managed
direct neighbour. -/
theorem mem_closureFrom (adj : NodeId → List NodeId) (univ : List NodeId)
    (n x : NodeId) :
    x ∈ closureFrom adj univ n ↔
      x ≠ n ∧ ∃ p, p ∈ adj n ∧ p ∈ univ ∧ ReachesIn adj univ p x := by
  unfold closureFrom
  rw [List.mem_filter]
  rw [mem_saturate]
  constructor
  · rintro ⟨⟨p, hp, hr⟩, hne⟩
    have hp2 := List.mem_dedup.mp hp
    rcases List.mem_filter.mp hp2 with ⟨hpadj, hpu⟩
    exact ⟨by simpa using hne, p, hpadj, by simpa using hpu, hr⟩
  · rintro ⟨hne, p, hpadj, hpu, hr⟩
    refine ⟨⟨p, ?_, hr⟩, by simpa using hne⟩
    exact List.mem_dedup.mpr (List.mem_filter.mpr ⟨hpadj, by simpa using hpu⟩)

/-- The closure never contains the node it was started from. -/
theorem self_not_mem_closureFrom (adj : NodeId → List NodeId)
    (univ : List NodeId) (n : NodeId) : n ∉ closureFrom adj univ n := by
  intro h
  exact ((mem_closureFrom adj univ n n).mp h).1 rfl

/-- The closure is duplicate-free: every node appears at most once. -/
theorem closureFrom_nodup (adj : NodeId → List NodeId) (univ : List NodeId)
    (n : NodeId) : (closureFrom adj univ n).Nodup := by
  unfold closureFrom
  exact (saturateAux_nodup adj univ _ _ (List.nodup_dedup _)).filter _

/-! Concrete fixtures, following the scenario of
`src/Testing/mitkDataStorageTest.cpp` lines 148-204: n1 carries a 3-D image,
n2 a surface with a red color and a group tag, n3 and n4 carry no data, n5 is
free-standing; n1 is source of n2, n2 of n3, n2 and n3 of n4. -/

/-- The image payload of node 1 (a 10x10x10 image, hence 3-D). -/
def imageData : BaseData :=
  { id := 100, className := "Image", supers := ["SlicedData", "BaseData"],
    dim := some 3 }

/-- The surface payload of node 2. -/
def surfaceData : BaseData :=
  { id := 200, className := "Surface", supers := ["BaseData"], dim := none }

/-- The red color used by the test. -/
def redColor : PropValue := PropValue.colorProp 1 0 0

/-- Node 1: image payload and a name. -/
def node1 : DataTreeNode :=
  { id := 1, data := some imageData,
    properties := [("name", PropValue.stringProp "Node 1 - Image Node")] }

/-- Node 2: surface payload, name, color and a group tag. -/
def node2 : DataTreeNode :=
  { id := 2, data := some surfaceData,
    properties :=
      [("name", PropValue.stringProp "Node 2 - Surface Node"),
       ("color", redColor),
       ("Resection Proposal 1", PropValue.groupTagProp)] }

/-- Node 3: no payload, name and two group tags. -/
def node3 : DataTreeNode :=
  { id := 3, data := none,
    properties :=
      [("name", PropValue.stringProp "Node 3 - Empty Node"),
       ("Resection Proposal 1", PropValue.groupTagProp),
       ("Resection Proposal 2", PropValue.groupTagProp)] }

/-- Node 4: no payload, color and a group tag. -/
def node4 : DataTreeNode :=
  { id := 4, data := none,
    properties :=
      [("color", redColor),
       ("Resection Proposal 2", PropValue.groupTagProp)] }

/-- Node 5: no payload, only a name. -/
def node5 : DataTreeNode :=
  { id := 5, data := none,
    properties := [("name", PropValue.stringProp "Node 5")] }

/-- The store after the five adds of the test (no cycle yet): n2 derived from
n1, n3 from n2, n4 from n2 and n3. -/
def testStore : DataStorage :=
  { nodes := [node1, node2, node3, node4, node5]
    sources := [(1, []), (2, [1]), (3, [2]), (4, [2, 3]), (5, [])]
    derivations := [(1, [2]), (2, [3, 4]), (3, [4]), (4, []), (5, [])]
    listeners := [] }

/-- The store of the circular-relationship check (test lines 369-380): the same
relations plus the edge making n1 derived from n4, closing the cycle
n1 ← n2 ← n4 ← ... ← n1. -/
def cycleStore : DataStorage :=
  { nodes := [node1, node2, node3, node4, node5]
    sources := [(1, [4]), (2, [1]), (3, [2]), (4, [2, 3]), (5, [])]
    derivations := [(1, [2]), (2, [3, 4]), (3, [4]), (4, [1]), (5, [])]
    listeners := [] }

/-- A store managing a single bare node with id 1. -/
def oneNodeStore : DataStorage :=
  { nodes := [{ id := 1, data := none, properties := [] }]
    sources := [(1, [])]
    derivations := [(1, [])]
    listeners := [] }

/-- The empty store. -/
def emptyStore : DataStorage :=
  { nodes := [], sources := [], derivations := [], listeners := [] }

/-- C1: for every managed node `n` in a relation graph that may contain
indirect cycles, `GetSources(n, directOnly := false)` (and symmetrically
`GetDerivations`) terminates (it is a total function) and returns the set of
ancestors reachable by repeatedly following source edges from `n`'s direct
parents, each reachable node appearing exactly once (the result is
duplicate-free) no matter how many paths reach it, with `n` itself never
included even when a cycle loops back to `n`; in the concrete cycle of the
test (n1 ← n2 ← n4 plus the edge making n1 derived from n4),
`GetSources(n4, directOnly := false)` is exactly the set {n1, n2, n3}. -/
theorem getSources_cycle_safe_closure (ds : DataStorage) (n : NodeId) :
    (GetSources ds n none false).Nodup ∧
    n ∉ GetSources ds n none false ∧
    (∀ x, x ∈ GetSources ds n none false ↔
      x ≠ n ∧ ∃ p, p ∈ sourcesOf ds n ∧ p ∈ univIds ds ∧
        ReachesIn (sourcesOf ds) (univIds ds) p x) ∧
    (GetDerivations ds n none false).Nodup ∧
    n ∉ GetDerivations ds n none false ∧
    (∀ x, x ∈ GetDerivations ds n none false ↔
      x ≠ n ∧ ∃ p, p ∈ derivationsOf ds n ∧ p ∈ univIds ds ∧
        ReachesIn (derivationsOf ds) (univIds ds) p x) ∧
    (GetSources cycleStore 4 none false).length = 3 ∧
    1 ∈ GetSources cycleStore 4 none false ∧
    2 ∈ GetSources cycleStore 4 none false ∧
    3 ∈ GetSources cycleStore 4 none false := by
  have hS : GetSources ds n none false =
      closureFrom (sourcesOf ds) (univIds ds) n := rfl
  have hD : GetDerivations ds n none false =
      closureFrom (derivationsOf ds) (univIds ds) n := rfl
  refine ⟨?_, ?_, ?_, ?_, ?_, ?_, ?_, ?_, ?_, ?_⟩
  · rw [hS]; exact closureFrom_nodup _ _ _
  · rw [hS]; exact self_not_mem_closureFrom _ _ _
  · intro x; rw [hS]; exact mem_closureFrom _ _ _ _
  · rw [hD]; exact closureFrom_nodup _ _ _
  · rw [hD]; exact self_not_mem_closureFrom _ _ _
  · intro x; rw [hD]; exact mem_closureFrom _ _ _ _
  · decide
  · decide
  · decide
  · decide

/-- C2: for any store state and predicates `p`, `q`, `GetSubset(AND(p,q))` is
the intersection of `GetSubset(p)` and `GetSubset(q)`, `GetSubset(OR(p,q))`
their union, and `GetSubset(NOT(p))` is `GetAll()` minus `GetSubset(p)` (all
as membership equalities between the returned node sets); AND/OR children are
evaluated short-circuit left-to-right (the head child decides whether the tail
is consulted), an empty AND matches every node, and an empty OR matches no
node. -/
theorem getSubset_combinator_laws (ds : DataStorage) (p q : NodePredicate) :
    (∀ x, x ∈ GetSubset ds (NodePredicate.and [p, q]) ↔
      x ∈ GetSubset ds p ∧ x ∈ GetSubset ds q) ∧
    (∀ x, x ∈ GetSubset ds (NodePredicate.or [p, q]) ↔
      x ∈ GetSubset ds p ∨ x ∈ GetSubset ds q) ∧
    (∀ x, x ∈ GetSubset ds (NodePredicate.not p) ↔
      x ∈ GetAll ds ∧ x ∉ GetSubset ds p) ∧
    GetSubset ds (NodePredicate.and []) = GetAll ds ∧
    GetSubset ds (NodePredicate.or []) = [] ∧
    (∀ node ps, checkNode (NodePredicate.and (p :: ps)) node =
      (if checkNode p node then checkNode (NodePredicate.and ps) node
       else false)) ∧
    (∀ node ps, checkNode (NodePredicate.or (p :: ps)) node =
      (if checkNode p node then true
       else checkNode (NodePredicate.or ps) node)) := by
  refine ⟨?_, ?_, ?_, ?_, ?_, ?_, ?_⟩
  · intro x
    simp only [GetSubset, List.mem_filter, checkNode, checkAll,
      Bool.and_eq_true, Bool.and_true]
    tauto
  · intro x
    simp only [GetSubset, List.mem_filter, checkNode, checkAny,
      Bool.or_eq_true, Bool.or_false]
    tauto
  · intro x
    simp only [GetSubset, GetAll, List.mem_filter, checkNode,
      Bool.not_eq_true', Bool.not_eq_true]
    constructor
    · rintro ⟨hmem, hval⟩
      exact ⟨hmem, fun hcon => by simp [hval] at hcon⟩
    · rintro ⟨hmem, hval⟩
      refine ⟨hmem, ?_⟩
      by_contra hcon
      exact hval ⟨hmem, by simpa using hcon⟩
  · simp [GetSubset, GetAll, checkNode, checkAll]
  · simp [GetSubset, checkNode, checkAny]
  · intro node ps
    cases h : checkNode p node <;> simp [checkNode, checkAll, h]
  · intro node ps
    cases h : checkNode p node <;> simp [checkNode, checkAny, h]

/-- C3 counterexample: when the node being added is already managed AND lists
itself among the parents, the duplicate check fires first (the spec lists the
`DuplicateNode` check before the `SelfParent` check in both §4.2's
precondition order and its failure order), so the call does not fail with a
`SelfParent` error as the claim demands for every such call. -/
theorem add_self_parent_counterexample :
    Add oneNodeStore { id := 1, data := none, properties := [] } [1] =
      Except.error AddError.duplicateNode ∧
    Add oneNodeStore { id := 1, data := none, properties := [] } [1] ≠
      Except.error AddError.selfParent := by
  refine ⟨rfl, fun h => ?_⟩
  have h2 : Except.error (α := DataStorage × List (Nat × StoreEvent))
      AddError.duplicateNode = Except.error AddError.selfParent := by
    rw [← h]; rfl
  cases h2

/-- C3 (amended): for every node `n` that is not already managed and every
parent set that contains `n` itself, `Add(n, parents)` fails with a
`SelfParent` error before any mutation: the managed set and both adjacency
views (indeed the whole store an exception-catching caller still holds) are
exactly as they were before the call. -/
theorem add_self_parent_rejected (ds : DataStorage) (node : DataTreeNode)
    (parents : List NodeId) (h1 : isManaged ds node.id = false)
    (h2 : node.id ∈ parents) :
    Add ds node parents = Except.error AddError.selfParent ∧
    tryAdd ds node parents = ds := by
  constructor
  · simp [Add, h1, h2]
  · simp [tryAdd, Add, h1, h2]

/-- C3 witness: the amended theorem applied to the empty store and a fresh
node listing itself as parent. -/
theorem add_self_parent_rejected_witness :
    isManaged emptyStore 1 = false ∧ (1 : NodeId) ∈ [1] ∧
    Add emptyStore { id := 1, data := none, properties := [] } [1] =
      Except.error AddError.selfParent := by
  refine ⟨rfl, by decide, ?_⟩
  exact (add_self_parent_rejected emptyStore
    { id := 1, data := none, properties := [] } [1] rfl (by decide)).1

/-- C4: for every node that is already managed, a second `Add` raises a
`DuplicateNode` error whatever the parent set is, and every failing `Add`
(whatever the error) leaves the store completely unmodified, all-or-nothing —
in particular the node count observed by `GetAll()` is unchanged after the
failed call. -/
theorem add_duplicate_atomic (ds : DataStorage) (node : DataTreeNode)
    (parents : List NodeId) (h : isManaged ds node.id = true) :
    Add ds node parents = Except.error AddError.duplicateNode ∧
    (GetAll (tryAdd ds node parents)).length = (GetAll ds).length ∧
    (∀ ds2 node2 parents2 e, Add ds2 node2 parents2 = Except.error e →
      tryAdd ds2 node2 parents2 = ds2) := by
  refine ⟨by simp [Add, h], by simp [tryAdd, Add, h], ?_⟩
  intro ds2 node2 parents2 e herr
  simp [tryAdd, herr]

/-- C4 witness: re-adding the managed node of the one-node store fails with
`DuplicateNode` and keeps the node count at one. -/
theorem add_duplicate_atomic_witness :
    isManaged oneNodeStore 1 = true ∧
    Add oneNodeStore { id := 1, data := none, properties := [] } [] =
      Except.error AddError.duplicateNode ∧
    (GetAll (tryAdd oneNodeStore
      { id := 1, data := none, properties := [] } [])).length =
      (GetAll oneNodeStore).length := by
  have h := add_duplicate_atomic oneNodeStore
    { id := 1, data := none, properties := [] } [] rfl
  exact ⟨rfl, h.1, h.2.1⟩

/-- Adjacency lookup at an entry whose key matches the head. -/
theorem lookupIds_cons_self (a : NodeId) (vs : List NodeId)
    (rest : List (NodeId × List NodeId)) {k : NodeId} (h : a = k) :
    lookupIds ((a, vs) :: rest) k = vs := by
  simp [lookupIds, List.find?_cons_of_pos, h]

/-- Adjacency lookup skips a head entry with a different key. -/
theorem lookupIds_cons_ne (a : NodeId) (vs : List NodeId)
    (rest : List (NodeId × List NodeId)) {k : NodeId} (h : a ≠ k) :
    lookupIds ((a, vs) :: rest) k = lookupIds rest k := by
  have hb : (a == k) = false := by simpa using h
  simp [lookupIds, List.find?_cons, hb]

/-- Deleting a node from an adjacency view clears its own entry. -/
theorem lookupIds_removeEntry_self (m : List (NodeId × List NodeId))
    (n : NodeId) : lookupIds (removeEntry m n) n = [] := by
  unfold lookupIds
  rw [List.find?_eq_none.mpr]
  intro kv hkv
  rcases List.mem_map.mp hkv with ⟨y, hy, rfl⟩
  have := (List.mem_filter.mp hy).2
  simpa using this

/-- Deleting a node from an adjacency view removes exactly it from every other
entry's value list. -/
theorem lookupIds_removeEntry_other (n k : NodeId) (hk : k ≠ n) :
    ∀ m : List (NodeId × List NodeId),
      lookupIds (removeEntry m n) k =
        (lookupIds m k).filter (fun x => !(x == n)) := by
  intro m
  induction m with
  | nil => rfl
  | cons kv rest ih =>
    obtain ⟨a, vs⟩ := kv
    by_cases hkn : a = n
    · have h1 : removeEntry ((a, vs) :: rest) n = removeEntry rest n := by
        simp [removeEntry, List.filter_cons, hkn]
      have h2 : lookupIds ((a, vs) :: rest) k = lookupIds rest k :=
        lookupIds_cons_ne a vs rest (fun hak => hk (hak.symm.trans hkn))
      rw [h1, h2, ih]
    · have h1 : removeEntry ((a, vs) :: rest) n =
          (a, vs.filter (fun x => !(x == n))) :: removeEntry rest n := by
        simp [removeEntry, List.filter_cons, hkn]
      rw [h1]
      by_cases hkk : a = k
      · rw [lookupIds_cons_self a (vs.filter (fun x => !(x == n)))
            (removeEntry rest n) hkk,
          lookupIds_cons_self a vs rest hkk]
      · rw [lookupIds_cons_ne a (vs.filter (fun x => !(x == n)))
            (removeEntry rest n) hkk,
          lookupIds_cons_ne a vs rest hkk, ih]

/-- C5: for every managed node `n`, after `Remove(n)`: `n` is no longer among
the direct derivations of any node (in particular of any former parent of
`n`), `n` is no longer among the direct sources of any node (in particular of
any former child), `n`'s own adjacency entries are fully cleared, the children
are not reparented — each surviving node keeps exactly its former sources
minus `n`, so a child whose only source was `n` ends with an empty source
set — and `n` leaves the managed set. -/
theorem remove_detaches_node (ds : DataStorage) (n : NodeId)
    (h : isManaged ds n = true) :
    (∀ p, n ∉ GetDerivations (Remove ds n).1 p none true) ∧
    (∀ c, n ∉ GetSources (Remove ds n).1 c none true) ∧
    GetSources (Remove ds n).1 n none true = [] ∧
    GetDerivations (Remove ds n).1 n none true = [] ∧
    (∀ c, c ≠ n → GetSources (Remove ds n).1 c none true =
      (sourcesOf ds c).filter (fun x => !(x == n))) ∧
    (∀ c, sourcesOf ds c = [n] → GetSources (Remove ds n).1 c none true = []) ∧
    isManaged (Remove ds n).1 n = false := by
  have hsrc : (Remove ds n).1.sources = removeEntry ds.sources n := by
    simp [Remove, h]
  have hder : (Remove ds n).1.derivations = removeEntry ds.derivations n := by
    simp [Remove, h]
  have hnodes : (Remove ds n).1.nodes =
      ds.nodes.filter (fun nd => !(nd.id == n)) := by
    simp [Remove, h]
  have hGS : ∀ c, GetSources (Remove ds n).1 c none true =
      lookupIds (removeEntry ds.sources n) c := by
    intro c
    show sourcesOf (Remove ds n).1 c = _
    rw [sourcesOf, hsrc]
  have hGD : ∀ p, GetDerivations (Remove ds n).1 p none true =
      lookupIds (removeEntry ds.derivations n) p := by
    intro p
    show derivationsOf (Remove ds n).1 p = _
    rw [derivationsOf, hder]
  have hnotmem : ∀ m : List (NodeId × List NodeId), ∀ k,
      n ∉ lookupIds (removeEntry m n) k := by
    intro m k hmem
    by_cases hkn : k = n
    · rw [hkn, lookupIds_removeEntry_self] at hmem
      cases hmem
    · rw [lookupIds_removeEntry_other n k hkn] at hmem
      have := (List.mem_filter.mp hmem).2
      simp at this
  refine ⟨?_, ?_, ?_, ?_, ?_, ?_, ?_⟩
  · intro p
    rw [hGD]
    exact hnotmem ds.derivations p
  · intro c
    rw [hGS]
    exact hnotmem ds.sources c
  · rw [hGS, lookupIds_removeEntry_self]
  · rw [hGD, lookupIds_removeEntry_self]
  · intro c hc
    rw [hGS, lookupIds_removeEntry_other n c hc, sourcesOf]
  · intro c hone
    by_cases hkn : c = n
    · rw [hkn, hGS, lookupIds_removeEntry_self]
    · rw [hGS, lookupIds_removeEntry_other n c hkn, sourcesOf] at *
      rw [hone]
      simp
  · rw [isManaged, hnodes, List.any_eq_false]
    intro nd hnd
    have := (List.mem_filter.mp hnd).2
    simpa using this

/-- C5 witness: removing node 2 of the test store clears its adjacency and
removes it from the derivations of its parent node 1 and the sources of its
child node 3. -/
theorem remove_detaches_node_witness :
    isManaged testStore 2 = true ∧
    GetSources (Remove testStore 2).1 2 none true = [] ∧
    GetDerivations (Remove testStore 2).1 2 none true = [] ∧
    2 ∉ GetDerivations (Remove testStore 2).1 1 none true ∧
    2 ∉ GetSources (Remove testStore 2).1 3 none true ∧
    GetSources (Remove testStore 2).1 3 none true = [] := by
  have h := remove_detaches_node testStore 2 rfl
  exact ⟨rfl, h.2.2.1, h.2.2.2.1, h.1 1, h.2.1 3, h.2.2.2.2.2.1 3 rfl⟩

/-- C6 counterexample: the claim demands that every leaf predicate return
`false` for a node without a data payload, but the property predicate matches
the data-less node n3 of the test (the test itself expects n3 in the result of
the group-tag query, lines 386-396), so "evaluation returns false" does not
hold for every leaf on absent-data nodes. -/
theorem leaf_predicate_counterexample :
    node3.data = none ∧
    NodePredicate.isLeaf (NodePredicate.property "Resection Proposal 1"
      (some PropValue.groupTagProp)) = true ∧
    checkNode (NodePredicate.property "Resection Proposal 1"
      (some PropValue.groupTagProp)) (some node3) = true := by
  exact ⟨rfl, rfl, rfl⟩

/-- C6 (amended): every leaf predicate's node check is total and pure by
construction; a null node never matches a leaf predicate; a node without a
data payload is a non-match (`false`, never an error) for the data-requiring
leaves — data-type exact, data-type compatible, and dimension — although the
property predicate may match it; and the compatible data-type predicate
`TNodePredicateDataType<T>::CheckNode` returns `true` exactly when the node is
non-null, has data, and the data is of type `T` or any sub-type, and `false`
in every other case. -/
theorem leaf_predicate_totality (p : NodePredicate) (T : String)
    (nd : DataTreeNode) (node : Option DataTreeNode)
    (hleaf : p.isLeaf = true) (hnodata : nd.data = none) :
    checkNode p none = false ∧
    TNodePredicateDataType.CheckNode T (some nd) = false ∧
    (TNodePredicateDataType.CheckNode T node = true ↔
      ∃ n2, node = some n2 ∧ ∃ d, n2.data = some d ∧ T ∈ d.classes) ∧
    checkNode (NodePredicate.dataTypeExact T) (some nd) = false ∧
    (∀ k, checkNode (NodePredicate.dimension k) (some nd) = false) := by
  refine ⟨?_, ?_, ?_, ?_, ?_⟩
  · cases p <;>
      simp [checkNode, NodePredicate.isLeaf,
        TNodePredicateDataType.CheckNode] at hleaf ⊢
  · simp [TNodePredicateDataType.CheckNode, hnodata]
  · cases node with
    | none => simp [TNodePredicateDataType.CheckNode]
    | some n2 =>
      cases hd : n2.data with
      | none => simp [TNodePredicateDataType.CheckNode, hd]
      | some d => simp [TNodePredicateDataType.CheckNode, hd]
  · simp [checkNode, hnodata]
  · intro k
    simp [checkNode, hnodata]

/-- C6 witness: the amended theorem applied to the dimension leaf, the
data-less node n3 and the image node n1. -/
theorem leaf_predicate_totality_witness :
    NodePredicate.isLeaf (NodePredicate.dimension 3) = true ∧
    node3.data = none ∧
    checkNode (NodePredicate.dimension 3) none = false ∧
    TNodePredicateDataType.CheckNode "Image" (some node3) = false ∧
    TNodePredicateDataType.CheckNode "Image" (some node1) = true := by
  have h := leaf_predicate_totality (NodePredicate.dimension 3) "Image" node3
    (some node1) rfl rfl
  refine ⟨rfl, rfl, h.1, h.2.1, ?_⟩
  rw [h.2.2.1]
  exact ⟨node1, rfl, imageData, rfl, by simp [imageData, BaseData.classes]⟩

/-- C8: `GetNamedObject<T>(name)` returns the data payload of the first
managed node whose name property equals `name` exactly when that payload is of
type `T` (or a sub-type); it returns null when no managed node carries the
name, and on the concrete test store the image node's payload is returned for
`T = Image` while the same name queried as `T = Surface` yields null. -/
theorem getNamedObject_type_filter (ds : DataStorage) (T s : String) :
    (∀ d, GetNamedObject ds T s = some d ↔
      ∃ nd, GetNamedNode ds s = some nd ∧ nd.data = some d ∧ T ∈ d.classes) ∧
    (GetNamedNode ds s = none → GetNamedObject ds T s = none) ∧
    GetNamedObject testStore "Image" "Node 1 - Image Node" = some imageData ∧
    GetNamedObject testStore "Surface" "Node 1 - Image Node" = none ∧
    GetNamedObject testStore "Image" "This name does not exist" = none := by
  refine ⟨?_, ?_, rfl, rfl, rfl⟩
  · intro d
    unfold GetNamedObject
    cases hfind : GetNamedNode ds s with
    | none => simp
    | some nd =>
      cases hd : nd.data with
      | none => simp [hd]
      | some d2 =>
        simp only [hd]
        constructor
        · intro hsome
          split at hsome
          · rename_i hcond
            injection hsome with h2
            subst h2
            exact ⟨nd, rfl, hd, by simpa using hcond⟩
          · cases hsome
        · rintro ⟨nd2, hnd2, hdata, hmem⟩
          injection hnd2 with h1
          subst h1
          rw [hd] at hdata
          injection hdata with h2
          subst h2
          split
          · rfl
          · rename_i hcond
            exact absurd hmem (by simpa using hcond)
  · intro h
    unfold GetNamedObject
    rw [h]

/-- The events an `Add` call dispatches (none when the call raised). -/
def addEvents (ds : DataStorage) (node : DataTreeNode)
    (parents : List NodeId) : List (Nat × StoreEvent) :=
  match Add ds node parents with
  | .ok r => r.2
  | .error _ => []

/-- A store with one managed node (id 5) and one registered listener (7). -/
def eventStore : DataStorage :=
  { nodes := [{ id := 5, data := none, properties := [] }]
    sources := [(5, [])]
    derivations := [(5, [])]
    listeners := [7] }

/-- Counting a pinned-second-component pair in a listener map counts the
listener. -/
theorem count_map_pair (lst : List Nat) (e : StoreEvent) (a : Nat) :
    (lst.map (fun x => (x, e))).count (a, e) = lst.count a := by
  induction lst with
  | nil => rfl
  | cons b rest ih =>
    by_cases hab : b = a
    · subst hab
      simp [List.count_cons, ih]
    · simp [List.count_cons, ih, hab, Prod.ext_iff]

/-- A pair whose first component is not in the listener list does not occur in
the listener map. -/
theorem pair_not_mem_map {lst : List Nat} {a : Nat} (h : a ∉ lst)
    (e e2 : StoreEvent) : (a, e2) ∉ lst.map (fun x => (x, e)) := by
  intro hmem
  rcases List.mem_map.mp hmem with ⟨x, hx, hxe⟩
  have hxa : x = a := by
    have := congrArg Prod.fst hxe
    simpa using this
  rw [hxa] at hx
  exact h hx

/-- C7: for every successful `Add(n, …)` the add-event fires exactly once per
registered listener, synchronously, and the dispatched events are computed
against the post-state in which `n` is already visible in `GetAll()` (a
listener observing the store during the callback sees `n` present); for every
`Remove` of a managed node the remove-event fires exactly once per registered
listener and `n` is already absent from `GetAll()` of the post-state; and a
listener that has been deregistered receives no events for any subsequent
`Add` or `Remove`. -/
theorem event_channel_contract (ds : DataStorage) (node : DataTreeNode)
    (parents : List NodeId) (n : NodeId) (l : Nat)
    (hnd : ds.listeners.Nodup)
    (h1 : isManaged ds node.id = false)
    (h2 : node.id ∉ parents)
    (h3 : parents.all (fun p => isManaged ds p) = true)
    (hman : isManaged ds n = true) :
    (∀ l2 ∈ ds.listeners,
      (addEvents ds node parents).count (l2, StoreEvent.nodeAdded node.id)
        = 1) ∧
    (∀ l2, l2 ∉ ds.listeners → ∀ e, (l2, e) ∉ addEvents ds node parents) ∧
    node.id ∈ (GetAll (tryAdd ds node parents)).map DataTreeNode.id ∧
    (∀ l2 ∈ ds.listeners,
      (Remove ds n).2.count (l2, StoreEvent.nodeRemoved n) = 1) ∧
    (∀ l2, l2 ∉ ds.listeners → ∀ e, (l2, e) ∉ (Remove ds n).2) ∧
    n ∉ (GetAll (Remove ds n).1).map DataTreeNode.id ∧
    (∀ e, (l, e) ∉ addEvents (RemoveListener ds l) node parents) ∧
    (∀ e, (l, e) ∉ (Remove (RemoveListener ds l) n).2) := by
  have hAddEv : addEvents ds node parents =
      ds.listeners.map (fun x => (x, StoreEvent.nodeAdded node.id)) := by
    unfold addEvents Add
    simp [h1, h2, h3]
  have hAddNodes : (tryAdd ds node parents).nodes = ds.nodes ++ [node] := by
    unfold tryAdd Add
    simp [h1, h2, h3]
  have hRemEv : (Remove ds n).2 =
      ds.listeners.map (fun x => (x, StoreEvent.nodeRemoved n)) := by
    simp [Remove, hman]
  have hRemNodes : (Remove ds n).1.nodes =
      ds.nodes.filter (fun nd => !(nd.id == n)) := by
    simp [Remove, hman]
  have hmng : ∀ x, isManaged (RemoveListener ds l) x = isManaged ds x :=
    fun _ => rfl
  have hlst : (RemoveListener ds l).listeners =
      ds.listeners.filter (fun x => !(x == l)) := rfl
  have hAddEv2 : addEvents (RemoveListener ds l) node parents =
      (ds.listeners.filter (fun x => !(x == l))).map
        (fun x => (x, StoreEvent.nodeAdded node.id)) := by
    unfold addEvents Add
    simp [hmng, hlst, h1, h2, h3]
  have hRemEv2 : (Remove (RemoveListener ds l) n).2 =
      (ds.listeners.filter (fun x => !(x == l))).map
        (fun x => (x, StoreEvent.nodeRemoved n)) := by
    unfold Remove
    simp [hmng, hlst, hman]
  refine ⟨?_, ?_, ?_, ?_, ?_, ?_, ?_, ?_⟩
  · intro l2 hl2
    rw [hAddEv, count_map_pair]
    exact List.count_eq_one_of_mem hnd hl2
  · intro l2 hl2 e
    rw [hAddEv]
    exact pair_not_mem_map hl2 _ e
  · show node.id ∈ ((tryAdd ds node parents).nodes).map DataTreeNode.id
    rw [hAddNodes]
    simp
  · intro l2 hl2
    rw [hRemEv, count_map_pair]
    exact List.count_eq_one_of_mem hnd hl2
  · intro l2 hl2 e
    rw [hRemEv]
    exact pair_not_mem_map hl2 _ e
  · show n ∉ ((Remove ds n).1.nodes).map DataTreeNode.id
    rw [hRemNodes]
    intro hmem
    rcases List.mem_map.mp hmem with ⟨nd2, hnd2, hid⟩
    have := (List.mem_filter.mp hnd2).2
    rw [hid] at this
    simp at this
  · intro e
    rw [hAddEv2]
    intro hmem
    rcases List.mem_map.mp hmem with ⟨x, hx, hxe⟩
    have hxl : x = l := by
      have := congrArg Prod.fst hxe
      simpa using this
    have := (List.mem_filter.mp hx).2
    simp [hxl] at this
  · intro e
    rw [hRemEv2]
    intro hmem
    rcases List.mem_map.mp hmem with ⟨x, hx, hxe⟩
    have hxl : x = l := by
      have := congrArg Prod.fst hxe
      simpa using this
    have := (List.mem_filter.mp hx).2
    simp [hxl] at this

/-- C7 witness: on the one-listener store, adding fresh node 1 and removing
managed node 5 are legal, and the deregistered listener 9 receives no events
from either operation. -/
theorem event_channel_contract_witness :
    eventStore.listeners.Nodup ∧
    isManaged eventStore 1 = false ∧
    (1 : NodeId) ∉ ([] : List NodeId) ∧
    ([] : List NodeId).all (fun p => isManaged eventStore p) = true ∧
    isManaged eventStore 5 = true ∧
    (∀ e, (9, e) ∉ addEvents (RemoveListener eventStore 9) node1 []) ∧
    (∀ e, (9, e) ∉ (Remove (RemoveListener eventStore 9) 5).2) := by
  have h := event_channel_contract eventStore node1 [] 5 9 (by decide) rfl
    (by decide) rfl rfl
  exact ⟨by decide, rfl, by decide, rfl, rfl,
    h.2.2.2.2.2.2.1, h.2.2.2.2.2.2.2⟩

end MitkStore
